import Mathlib

/-!
Verification of the fetch/cache/concurrency layer of the fund-app repository.

The definitions below are shallow embeddings of the TypeScript code in
`src/views/Filter.vue` (the `fundFast` API module): `clearFundCache`, the
concurrency limiter (`withConcurrencyControl` / `executeNext`), the JSONP
pending-request machinery (`initJsonpCallback`, `fetchFundEstimateFast`),
the history/analytics functions (`fetchNetValueHistoryFast`,
`fetchSimpleKLineData`, `calculatePeriodReturns`) and the fail-soft index
fetchers (`fetchMarketIndicesFast`, `fetchFundRankingFast`,
`fetchGlobalIndices`).

The cache module (`src/api/cache`) and the persisted cache
(`persistCache` from `src/api/tiantianApi`) are imported by the code but
their sources are not part of the repository snapshot; they are modelled
from the specification (spec sections 3, 4.1, 4.2).

Dates are modelled as integers (a day count / timestamp); monetary values
are modelled as rationals. The file lists all definitions first and all
theorems afterwards.
-/

-- ======================================================================
-- Definitions
-- ======================================================================

-- ========== Cache model (spec sections 3, 4.1, 4.2) ==========

/-- Modelled from the spec: one entry of the in-memory TTL key/value store
(spec section 3, CacheEntry - key, opaque payload, expiry timestamp).
The cache module itself (`src/api/cache`) is missing from the sources. -/
structure CacheEntry (V : Type) where
  key : String
  value : V
  expiry : Int
  deriving DecidableEq, Repr

/-- Modelled from the spec: the in-memory TTL key/value store, as a list of
entries (most recent write first). -/
abbrev Cache (V : Type) := List (CacheEntry V)

/-- Modelled from the spec: `get(key) -> value or miss`; a read after expiry
is treated as a miss (spec section 4.1; lazy removal on read does not change
any lookup result, so the store is left unchanged here). -/
def Cache.get (now : Int) (c : Cache V) (k : String) : Option V :=
  match c.find? (fun e => e.key = k) with
  | some e => if now < e.expiry then some e.value else none
  | none => none

/-- Modelled from the spec: `set(key, value, ttlMillis)`; overwrites any
previous entry for the key and stamps expiry `now + ttl`. -/
def Cache.set (now : Int) (c : Cache V) (k : String) (v : V) (ttl : Int) : Cache V :=
  ⟨k, v, now + ttl⟩ :: c.filter (fun e => e.key ≠ k)

/-- Modelled from the spec: `delete(key)` removes the entry for exactly that
key (spec section 4.1). -/
def Cache.delete (c : Cache V) (k : String) : Cache V :=
  c.filter (fun e => e.key ≠ k)

/-- Modelled from the spec: the persisted cache (spec section 4.2) has the
same read/write contract but no expiry of its own; an association list. -/
def persistGet (p : List (String × V)) (k : String) : Option V :=
  (p.find? (fun e => e.1 = k)).map (fun e => e.2)

/-- Modelled from the spec: persisted-cache write, overwriting the key. -/
def persistSet (p : List (String × V)) (k : String) (v : V) : List (String × V) :=
  (k, v) :: p.filter (fun e => e.1 ≠ k)

/-- Modelled from the spec: `CACHE_TTL` lives in the missing cache module;
only its positivity matters to the claims settled here. -/
def CACHE_TTL_NET_VALUE : Int := 600000

/-- Modelled from the spec: estimate TTL from the missing cache module. -/
def CACHE_TTL_ESTIMATE : Int := 60000

-- ========== clearFundCache (Filter.vue lines 459-469) ==========

/-- Embeds `clearFundCache(code)`: for each kind in
`['estimate', 'netvalue', 'kline', 'period']` it deletes every key
`kind_code_days` for days in `[30, 60, 90, 180, 365, 400]` and the bare key
`kind_code`. -/
def clearFundCache (code : String) (c : Cache V) : Cache V :=
  let keys := ["estimate", "netvalue", "kline", "period"]
  keys.foldl (fun acc kind =>
    let acc2 := [30, 60, 90, 180, 365, 400].foldl
      (fun a (days : Nat) => Cache.delete a (kind ++ "_" ++ code ++ "_" ++ toString days)) acc
    Cache.delete acc2 (kind ++ "_" ++ code)) c

/-- The exact list of keys that `clearFundCache code` deletes, in deletion
order. -/
def clearFundCacheKeys (code : String) : List String :=
  (["estimate", "netvalue", "kline", "period"].map (fun kind =>
    ([30, 60, 90, 180, 365, 400].map
      (fun (days : Nat) => kind ++ "_" ++ code ++ "_" ++ toString days))
      ++ [kind ++ "_" ++ code])).flatten

-- ========== Concurrency limiter (Filter.vue lines 476-509) ==========

/-- `MAX_CONCURRENT = 5` (Filter.vue line 477). -/
def MAX_CONCURRENT : Nat := 5

/-- State of the concurrency limiter: the `activeRequests` counter and the
`requestQueue` of queued task identifiers, plus the multiset (as a list) of
identifiers of tasks that have been started but have not yet completed.
In the code a queued entry is the `execute` closure of its task, so a queue
element is identified with its task id. -/
structure LimiterState where
  activeRequests : Nat
  requestQueue : List Nat
  running : List Nat
  deriving DecidableEq, Repr

/-- Initial limiter state: `activeRequests = 0`, empty queue. -/
def initLimiter : LimiterState := ⟨0, [], []⟩

/-- Embeds `executeNext()`: if the queue is nonempty and
`activeRequests < MAX_CONCURRENT`, shift the head of the queue and run it
(running a task begins with `activeRequests++`). -/
def executeNextStep (s : LimiterState) : LimiterState :=
  match s.requestQueue with
  | [] => s
  | t :: rest =>
    if s.activeRequests < MAX_CONCURRENT then
      { activeRequests := s.activeRequests + 1, requestQueue := rest,
        running := s.running ++ [t] }
    else s

/-- Embeds the submission path of `withConcurrencyControl(fn)`: if
`activeRequests < MAX_CONCURRENT` the task executes at once, otherwise its
`execute` closure is pushed to the back of `requestQueue`. -/
def submitStep (s : LimiterState) (t : Nat) : LimiterState :=
  if s.activeRequests < MAX_CONCURRENT then
    { activeRequests := s.activeRequests + 1, requestQueue := s.requestQueue,
      running := s.running ++ [t] }
  else
    { s with requestQueue := s.requestQueue ++ [t] }

/-- Embeds the `finally` block of a task inside `withConcurrencyControl`:
`activeRequests--` followed by `executeNext()`; it runs identically whether
the task resolved or rejected. -/
def completeStep (s : LimiterState) (t : Nat) : LimiterState :=
  executeNextStep
    { activeRequests := s.activeRequests - 1, requestQueue := s.requestQueue,
      running := s.running.erase t }

/-- Limiter events: a task submission, or the completion of a running task
(`ok` records whether the task succeeded or failed; the `finally` block
does not distinguish the two). -/
inductive LEvent
  | submit (t : Nat)
  | complete (t : Nat) (ok : Bool)

/-- One interleaving step of the limiter. -/
inductive LStep : LimiterState → LEvent → LimiterState → Prop
  | submit (s : LimiterState) (t : Nat) : LStep s (.submit t) (submitStep s t)
  | complete (s : LimiterState) (t : Nat) (ok : Bool) :
      t ∈ s.running → LStep s (.complete t ok) (completeStep s t)

/-- States of the limiter reachable from the initial state by any sequence
of submissions and completions. -/
inductive LReachable : LimiterState → Prop
  | init : LReachable initLimiter
  | step {s s2 : LimiterState} {e : LEvent} :
      LReachable s → LStep s e s2 → LReachable s2

-- ========== History, kline and period-return data (Filter.vue 642-814) ==========

/-- A net-value history record (`NetValueRecord` from `types/fund`); the
`date` string is modelled as an integer day number. -/
structure NetValueRecord where
  date : Int
  netValue : ℚ
  totalNetValue : ℚ
  changeRate : ℚ
  deriving DecidableEq, Repr

/-- One point of the raw `Data_netWorthTrend` payload: `x` timestamp
(modelled as the day number the code formats it to), `y` net value,
`equityReturn` percent change; the JS `|| 0` defaulting of absent fields is
modelled by the fields being already-defaulted rationals. -/
structure TrendItem where
  x : Int
  y : ℚ
  equityReturn : ℚ
  deriving DecidableEq, Repr

/-- `SimpleKLineData` (Filter.vue lines 718-723); `time` is modelled as the
integer day number, `volume` is the optional field the kline projection
never sets. -/
structure SimpleKLineData where
  time : Int
  value : ℚ
  change : ℚ
  volume : Option ℚ
  deriving DecidableEq, Repr

/-- `PeriodReturn` (Filter.vue lines 750-755). -/
structure PeriodReturn where
  period : String
  label : String
  days : Int
  change : ℚ
  deriving DecidableEq, Repr

/-- One entry of the fixed window list of `calculatePeriodReturns`. -/
structure PeriodDef where
  period : String
  label : String
  days : Int
  deriving DecidableEq, Repr

/-- The values the shared live cache stores for the history, kline and
period keys (the TS cache is heterogeneous; only these three kinds matter
to the analytics functions). -/
inductive CacheVal
  | histV (h : List NetValueRecord)
  | klineV (k : List SimpleKLineData)
  | periodV (p : List PeriodReturn)
  deriving DecidableEq, Repr

/-- Embeds `fetchNetValueHistoryFast(code, days)` (Filter.vue lines 648-714)
under an explicit network input: `trend` is `Data_netWorthTrend` as
delivered by the loaded script, or `none` for the timeout and script-error
paths (both resolve with `[]`). -/
def fetchNetValueHistoryFast (now : Int) (code : String) (days : Nat)
    (c : Cache CacheVal) (trend : Option (List TrendItem)) :
    List NetValueRecord × Cache CacheVal :=
  let cacheKey := "netvalue_" ++ code ++ "_" ++ toString days
  match Cache.get now c cacheKey with
  | some (.histV cached) => (cached, c)
  | _ =>
    match trend with
    | none => ([], c)
    | some tr =>
      if tr.length = 0 then ([], c)
      else
        -- JS `trend.slice(-days)` keeps the last `days` elements; for
        -- `days = 0`, `slice(-0)` is the whole array
        let recentData := if days = 0 then tr else tr.drop (tr.length - days)
        let records := (recentData.map (fun item =>
          ({ date := item.x, netValue := item.y, totalNetValue := item.y,
             changeRate := item.equityReturn } : NetValueRecord))).reverse
        (records, Cache.set now c cacheKey (.histV records) CACHE_TTL_NET_VALUE)

/-- Embeds `fetchSimpleKLineData(code, days)` (Filter.vue lines 728-746):
map the cached newest-first history to (time, value, change) triples and
reverse to chronological order, caching under the kline key. -/
def fetchSimpleKLineData (now : Int) (code : String) (days : Nat)
    (c : Cache CacheVal) (trend : Option (List TrendItem)) :
    List SimpleKLineData × Cache CacheVal :=
  let cacheKey := "kline_" ++ code ++ "_" ++ toString days
  match Cache.get now c cacheKey with
  | some (.klineV cached) => (cached, c)
  | _ =>
    let fetched := fetchNetValueHistoryFast now code days c trend
    let klineData := (fetched.1.map (fun item =>
      ({ time := item.date, value := item.netValue, change := item.changeRate,
         volume := none } : SimpleKLineData))).reverse
    (klineData, Cache.set now fetched.2 cacheKey (.klineV klineData) CACHE_TTL_NET_VALUE)

/-- Models the JS `parseFloat(x.toFixed(2))` rounding to two decimals. -/
def roundTo2 (q : ℚ) : ℚ := (round (q * 100) : ℚ) / 100

/-- The fixed lookback-window list of `calculatePeriodReturns`
(Filter.vue lines 778-784). -/
def periodsList : List PeriodDef :=
  [⟨"Z", "近1周", 7⟩, ⟨"Y", "近1月", 30⟩, ⟨"3Y", "近3月", 90⟩,
   ⟨"6Y", "近6月", 180⟩, ⟨"1N", "近1年", 365⟩]

/-- Embeds `calculatePeriodReturns(code)` (Filter.vue lines 760-814): on a
period-cache miss fetch 400 days of history, require at least 2 records and
a positive latest value, then for each window take the first record (in
newest-first order) dated on or before `now - days` and push its rounded
percentage change when its value is positive. -/
def calculatePeriodReturns (now : Int) (code : String) (c : Cache CacheVal)
    (trend : Option (List TrendItem)) : List PeriodReturn × Cache CacheVal :=
  let cacheKey := "period_" ++ code
  match Cache.get now c cacheKey with
  | some (.periodV cached) => (cached, c)
  | _ =>
    let fetched := fetchNetValueHistoryFast now code 400 c trend
    let history := fetched.1
    if history.length < 2 then ([], fetched.2)
    else
      match history with
      | [] => ([], fetched.2)
      | latest :: _ =>
        if latest.netValue ≤ 0 then ([], fetched.2)
        else
          let results := periodsList.filterMap (fun p =>
            let targetDate := now - p.days
            match history.find? (fun record => record.date ≤ targetDate) with
            | some found =>
              if 0 < found.netValue then
                some ⟨p.period, p.label, p.days,
                  roundTo2 ((latest.netValue - found.netValue) / found.netValue * 100)⟩
              else none
            | none => none)
          (results, Cache.set now fetched.2 cacheKey (.periodV results) CACHE_TTL_NET_VALUE)

/-- Helper for the specification-side notion of most recent qualifying
record: keep the record with the larger date (the earlier-listed one on
ties). -/
def betterRecord (best : Option NetValueRecord) (r : NetValueRecord) : Option NetValueRecord :=
  match best with
  | none => some r
  | some m => if m.date < r.date then some r else some m

/-- Specification-side definition (spec section 4.5): among the records
dated on or before `target`, one of maximal date; `none` when no record
qualifies. Compared against the embedded code in the refinement theorem. -/
def mostRecentOnOrBefore (history : List NetValueRecord) (target : Int) :
    Option NetValueRecord :=
  (history.filter (fun r => r.date ≤ target)).foldl betterRecord none

-- ========== JSONP estimate machinery (Filter.vue lines 511-620) ==========

/-- The `jsonpgz` payload for one fund; the feed delivers its numeric
fields as strings, so they stay opaque strings here. Only `fundcode` is
inspected by the code. -/
structure FundEstimate where
  fundcode : String
  gsz : String
  gszzl : String
  deriving DecidableEq, Repr

/-- A `pendingRequests` entry: the caller it belongs to, the fund code it
was issued for, and the persisted-cache snapshot (`const persisted = ...`)
captured by `fetchFundEstimateFast` before dispatching, which its timeout
and error closures fall back to. -/
structure PendingRecord where
  id : Nat
  code : String
  persisted : Option FundEstimate
  deriving DecidableEq, Repr

/-- How a caller promise of `fetchFundEstimateFast` settles. -/
inductive FetchOutcome
  | resolved (v : FundEstimate)
  | rejected (msg : String)
  deriving DecidableEq, Repr

/-- Global state of the estimate machinery: the `pendingRequests` list, the
set of armed timeout closures, the set of script elements whose `onerror`
can still fire (each carrying the same captured data as its pending
record), the live and persisted caches, and the settled caller promises. -/
structure FetchState where
  pending : List PendingRecord
  timers : List PendingRecord
  scripts : List PendingRecord
  live : Cache FundEstimate
  persist : List (String × FundEstimate)
  outcomes : List (Nat × FetchOutcome)
  deriving DecidableEq, Repr

/-- Initial state: nothing in flight, empty live cache, persisted cache as
restored from durable storage. -/
def initFetch (p0 : List (String × FundEstimate)) : FetchState :=
  ⟨[], [], [], [], p0, []⟩

/-- The recorded settlement of caller `id`, if any. -/
def outcomeOf (s : FetchState) (id : Nat) : Option FetchOutcome :=
  (s.outcomes.find? (fun q => q.1 = id)).map (fun q => q.2)

/-- Promise semantics: a caller settles at most once; a second resolution
attempt is a no-op. -/
def settle (outs : List (Nat × FetchOutcome)) (id : Nat) (o : FetchOutcome) :
    List (Nat × FetchOutcome) :=
  match outs.find? (fun q => q.1 = id) with
  | some _ => outs
  | none => (id, o) :: outs

/-- Caller identifiers already used anywhere in the state. -/
def usedIds (s : FetchState) : List Nat :=
  s.pending.map (fun r => r.id) ++ s.timers.map (fun r => r.id)
    ++ s.scripts.map (fun r => r.id) ++ s.outcomes.map (fun q => q.1)

/-- Embeds the dispatch tail of `fetchFundEstimateFast` (lines 565-618):
read the persisted snapshot, push a pending record, arm the timeout and
inject the script element. -/
def dispatchStep (s : FetchState) (id : Nat) (code : String) : FetchState :=
  let snap := persistGet s.persist ("estimate_" ++ code)
  let r : PendingRecord := ⟨id, code, snap⟩
  { s with pending := s.pending ++ [r], timers := s.timers ++ [r],
           scripts := s.scripts ++ [r] }

/-- Embeds the shared `jsonpgz` handler (lines 526-540): ignore a payload
that is absent or has a falsy fund code; otherwise find the first pending
record with that code - if none matches, do nothing; if one matches,
cancel its timer, remove it, write both caches and resolve its caller. -/
def jsonpgzStep (now : Int) (s : FetchState) (data : Option FundEstimate) : FetchState :=
  match data with
  | none => s
  | some d =>
    if d.fundcode = "" then s
    else
      match s.pending.find? (fun r => r.code = d.fundcode) with
      | none => s
      | some req =>
        { pending := s.pending.eraseP (fun r => r.code = d.fundcode),
          timers := s.timers.filter (fun t => t.id ≠ req.id),
          scripts := s.scripts.filter (fun t => t.id ≠ req.id),
          live := Cache.set now s.live ("estimate_" ++ d.fundcode) d CACHE_TTL_ESTIMATE,
          persist := persistSet s.persist ("estimate_" ++ d.fundcode) d,
          outcomes := settle s.outcomes req.id (.resolved d) }

/-- The settlement performed by the 8-second timeout closure (lines
570-577): resolve with the persisted snapshot if one was captured,
otherwise reject. -/
def timeoutOutcome (r : PendingRecord) : FetchOutcome :=
  match r.persisted with
  | some p => .resolved p
  | none => .rejected ("超时: " ++ r.code)

/-- The settlement performed by the `script.onerror` closure (lines
602-613): resolve with the persisted snapshot if present, otherwise
reject. -/
def errorOutcome (r : PendingRecord) : FetchOutcome :=
  match r.persisted with
  | some p => .resolved p
  | none => .rejected ("失败: " ++ r.code)

/-- Embeds the timeout closure firing: remove the script element, disarm
the fired timer, splice the first pending record with the same code (no
`clearTimeout` on it), and settle the caller. -/
def timeoutStep (s : FetchState) (r : PendingRecord) : FetchState :=
  { pending := s.pending.eraseP (fun p2 => p2.code = r.code),
    timers := s.timers.filter (fun t => t.id ≠ r.id),
    scripts := s.scripts.filter (fun t => t.id ≠ r.id),
    live := s.live, persist := s.persist,
    outcomes := settle s.outcomes r.id (timeoutOutcome r) }

/-- Embeds `script.onerror` firing: remove the script element; if a pending
record with the same code exists, clear that record's timer and splice it;
settle the caller. -/
def scriptErrorStep (s : FetchState) (r : PendingRecord) : FetchState :=
  let s1 : FetchState :=
    match s.pending.find? (fun p2 => p2.code = r.code) with
    | some found =>
      { s with pending := s.pending.eraseP (fun p2 => p2.code = r.code),
               timers := s.timers.filter (fun t => t.id ≠ found.id) }
    | none => s
  { s1 with scripts := s1.scripts.filter (fun t => t.id ≠ r.id),
            outcomes := settle s1.outcomes r.id (errorOutcome r) }

/-- The observable events of the estimate machinery: a `fetchFundEstimateFast`
call that reaches dispatch, one that was served from the live cache, one
served from the persisted cache outside trading hours, a `jsonpgz` response,
a timeout firing, and a script transport error. -/
inductive FEvent
  | dispatch (now : Int) (trading : Bool) (id : Nat) (code : String)
  | response (now : Int) (data : Option FundEstimate)
  | timeoutFire (r : PendingRecord)
  | scriptError (r : PendingRecord)
  | cacheHit (now : Int) (id : Nat) (code : String)
  | offHours (now : Int) (id : Nat) (code : String)

/-- Guarded step function of the machinery; `none` means the event cannot
occur in the given state (its guard in `fetchFundEstimateFast` fails). -/
def fstep (s : FetchState) (e : FEvent) : Option FetchState :=
  match e with
  | .dispatch now trading id code =>
    if Cache.get now s.live ("estimate_" ++ code) = none
        ∧ (trading = true ∨ persistGet s.persist ("estimate_" ++ code) = none)
        ∧ id ∉ usedIds s then
      some (dispatchStep s id code)
    else none
  | .response now data => some (jsonpgzStep now s data)
  | .timeoutFire r => if r ∈ s.timers then some (timeoutStep s r) else none
  | .scriptError r => if r ∈ s.scripts then some (scriptErrorStep s r) else none
  | .cacheHit now id code =>
    match Cache.get now s.live ("estimate_" ++ code) with
    | some v =>
      if id ∉ usedIds s then
        some { s with outcomes := settle s.outcomes id (.resolved v) }
      else none
    | none => none
  | .offHours now id code =>
    match Cache.get now s.live ("estimate_" ++ code),
        persistGet s.persist ("estimate_" ++ code) with
    | none, some p =>
      if id ∉ usedIds s then
        some { s with live := Cache.set now s.live ("estimate_" ++ code) p CACHE_TTL_ESTIMATE,
                      outcomes := settle s.outcomes id (.resolved p) }
      else none
    | _, _ => none

/-- States reachable by any interleaving of calls, responses, timeouts and
transport errors. -/
inductive FReach (p0 : List (String × FundEstimate)) : FetchState → Prop
  | init : FReach p0 (initFetch p0)
  | step {s s2 : FetchState} {e : FEvent} :
      FReach p0 s → fstep s e = some s2 → FReach p0 s2

/-- States reachable by interleavings in which a dispatch for a fund code
never happens while a pending record for that code exists (no two
overlapping calls share a code). -/
inductive FReachD (p0 : List (String × FundEstimate)) : FetchState → Prop
  | init : FReachD p0 (initFetch p0)
  | step {s s2 : FetchState} {e : FEvent} :
      FReachD p0 s → fstep s e = some s2 →
      (∀ now trading id code, e = .dispatch now trading id code →
        ∀ r ∈ s.pending, r.code ≠ code) →
      FReachD p0 s2

/-- The state after two overlapping dispatches for fund 000001. -/
def doubleDispatchState : FetchState :=
  ⟨[⟨0, "000001", none⟩, ⟨1, "000001", none⟩],
   [⟨0, "000001", none⟩, ⟨1, "000001", none⟩],
   [⟨0, "000001", none⟩, ⟨1, "000001", none⟩], [], [], []⟩

/-- The state after a single dispatch for fund 000001. -/
def singleDispatchState : FetchState :=
  ⟨[⟨0, "000001", none⟩], [⟨0, "000001", none⟩], [⟨0, "000001", none⟩], [], [], []⟩

-- ========== Fail-soft index/ranking fetchers (Filter.vue 830-856, 985-1015, 1126-1210) ==========

/-- A raw item of a push2 payload `data.data.diff`: f2 price, f3 percent
change, f4 change, f12 code, f14 name; the `|| 0` defaulting of absent
numeric fields is modelled by the fields being already-defaulted
rationals. -/
structure RawIndexItem where
  f2 : ℚ
  f3 : ℚ
  f4 : ℚ
  f12 : String
  f14 : String
  deriving DecidableEq, Repr

/-- `MarketIndexSimple` (Filter.vue lines 818-824). -/
structure MarketIndexSimple where
  code : String
  name : String
  current : ℚ
  change : ℚ
  changePercent : ℚ
  deriving DecidableEq, Repr

/-- `FundRankItemSimple` (Filter.vue lines 860-865). -/
structure FundRankItemSimple where
  code : String
  name : String
  netValue : ℚ
  dayChange : ℚ
  deriving DecidableEq, Repr

/-- The region tag of a global index. -/
inductive Region
  | cn
  | hk
  | us
  | eu
  | asia
  deriving DecidableEq, Repr

/-- `GlobalIndex` (Filter.vue lines 1112-1119). -/
structure GlobalIndex where
  name : String
  code : String
  price : ℚ
  change : ℚ
  changePercent : ℚ
  region : Region
  deriving DecidableEq, Repr

/-- One entry of the hardcoded index request list of `fetchGlobalIndices`. -/
structure GlobalIndexMeta where
  code : String
  name : String
  region : Region
  deriving DecidableEq, Repr

/-- The hardcoded list of requested global indices (Filter.vue 1133-1142). -/
def globalIndexList : List GlobalIndexMeta :=
  [⟨"1.000001", "上证指数", .cn⟩, ⟨"0.399001", "深证成指", .cn⟩,
   ⟨"0.399006", "创业板指", .cn⟩, ⟨"100.HSI", "恒生指数", .hk⟩,
   ⟨"100.DJIA", "道琼斯", .us⟩, ⟨"100.NDX", "纳斯达克", .us⟩,
   ⟨"100.SPX", "标普500", .us⟩, ⟨"100.N225", "日经225", .asia⟩]

/-- `getDefaultGlobalIndices()` (Filter.vue 1201-1210): the hardcoded
zero-valued fallback list. -/
def getDefaultGlobalIndices : List GlobalIndex :=
  [⟨"上证指数", "s_sh000001", 0, 0, 0, .cn⟩,
   ⟨"深证成指", "s_sz399001", 0, 0, 0, .cn⟩,
   ⟨"恒生指数", "rt_hkHSI", 0, 0, 0, .hk⟩,
   ⟨"道琼斯", "gb_$dji", 0, 0, 0, .us⟩,
   ⟨"纳斯达克", "gb_$ixic", 0, 0, 0, .us⟩,
   ⟨"日经225", "int_nikkei", 0, 0, 0, .asia⟩]

/-- Embeds `fetchMarketIndicesFast` (Filter.vue 830-856). `net` is the
outcome of `await fetch` plus `await response.json()`: `.error` when either
throws, `.ok none` when the payload has no `data.data.diff`, `.ok (some
diff)` otherwise. The returned `Except` models the promise: the `try/catch`
returns `[]` on any throw, so the result is always `.ok`. -/
def fetchMarketIndicesFast (cached : Option (List MarketIndexSimple))
    (net : Except String (Option (List RawIndexItem))) :
    Except String (List MarketIndexSimple) :=
  match cached with
  | some c => .ok c
  | none =>
    match net with
    | .error _ => .ok []
    | .ok none => .ok []
    | .ok (some diff) =>
      .ok (diff.map (fun item =>
        { code := item.f12, name := item.f14, current := item.f2,
          change := item.f4, changePercent := item.f3 }))

/-- Embeds `fetchFundRankingFast` (Filter.vue 985-1015), same shape as the
market-index fetcher; `cached` keys on the (order, pageSize) cache key. -/
def fetchFundRankingFast (cached : Option (List FundRankItemSimple))
    (net : Except String (Option (List RawIndexItem))) :
    Except String (List FundRankItemSimple) :=
  match cached with
  | some c => .ok c
  | none =>
    match net with
    | .error _ => .ok []
    | .ok none => .ok []
    | .ok (some diff) =>
      .ok (diff.map (fun item =>
        { code := item.f12, name := item.f14, netValue := item.f2,
          dayChange := item.f3 }))

/-- Embeds `fetchGlobalIndices` (Filter.vue 1126-1199): the JSONP callback
walks the diff pairing each item with the hardcoded index list entry of the
same position and keeps items with positive price (divided by 100); a
timeout, transport error or missing diff leaves `results` empty; an empty
`results` and the outer catch both yield the hardcoded fallback list. -/
def fetchGlobalIndices (cached : Option (List GlobalIndex))
    (net : Except String (Option (List RawIndexItem))) :
    Except String (List GlobalIndex) :=
  match cached with
  | some c => .ok c
  | none =>
    match net with
    | .error _ => .ok getDefaultGlobalIndices
    | .ok payload =>
      let results : List GlobalIndex :=
        match payload with
        | none => []
        | some diff =>
          (globalIndexList.zip diff).filterMap (fun pr =>
            if 0 < pr.2.f2 then
              some { name := pr.1.name, code := pr.1.code, price := pr.2.f2 / 100,
                     change := pr.2.f4 / 100, changePercent := pr.2.f3 / 100,
                     region := pr.1.region }
            else none)
      if results = [] then .ok getDefaultGlobalIndices else .ok results

-- ======================================================================
-- Theorems
-- ======================================================================

-- ========== Cache lemmas ==========

theorem Cache.get_delete_self (now : Int) (c : Cache V) (k : String) :
    Cache.get now (Cache.delete c k) k = none := by
  unfold Cache.get Cache.delete
  have h : (c.filter (fun e => e.key ≠ k)).find? (fun e => e.key = k) = none := by
    rw [List.find?_eq_none]
    intro e he
    have := (List.mem_filter.mp he).2
    simpa using this
  rw [h]

theorem Cache.find?_filter_ne (c : Cache V) (k k2 : String) (hne : k ≠ k2) :
    (c.filter (fun e => e.key ≠ k2)).find? (fun e => e.key = k)
      = c.find? (fun e => e.key = k) := by
  induction c with
  | nil => rfl
  | cons e t ih =>
    by_cases h2 : e.key = k2
    · have hk : e.key ≠ k := by rw [h2]; exact fun h => hne h.symm
      rw [List.filter_cons_of_neg (by simp [h2]), ih,
        List.find?_cons_of_neg _ (by simp [hk])]
    · rw [List.filter_cons_of_pos (by simp [h2])]
      by_cases hk : e.key = k
      · rw [List.find?_cons_of_pos _ (by simp [hk]), List.find?_cons_of_pos _ (by simp [hk])]
      · rw [List.find?_cons_of_neg _ (by simp [hk]), List.find?_cons_of_neg _ (by simp [hk]), ih]

theorem Cache.get_delete_other (now : Int) (c : Cache V) (k k2 : String) (hne : k ≠ k2) :
    Cache.get now (Cache.delete c k2) k = Cache.get now c k := by
  unfold Cache.get Cache.delete
  rw [Cache.find?_filter_ne c k k2 hne]

theorem Cache.get_set_self (now : Int) (c : Cache V) (k : String) (v : V) (ttl : Int)
    (httl : 0 < ttl) :
    Cache.get now (Cache.set now c k v ttl) k = some v := by
  unfold Cache.get Cache.set
  rw [List.find?_cons_of_pos _ (by simp)]
  simp [httl]

theorem Cache.get_set_other (now now2 : Int) (c : Cache V) (k k2 : String) (v : V) (ttl : Int)
    (hne : k ≠ k2) :
    Cache.get now (Cache.set now2 c k2 v ttl) k = Cache.get now c k := by
  unfold Cache.get Cache.set
  rw [List.find?_cons_of_neg _ (by simp; exact fun h => hne h.symm),
    Cache.find?_filter_ne c k k2 hne]

-- ========== clearFundCache: C7 and C10 ==========

theorem clearFundCache_eq_foldl (code : String) (c : Cache V) :
    clearFundCache code c = (clearFundCacheKeys code).foldl Cache.delete c := by
  simp [clearFundCache, clearFundCacheKeys]

theorem Cache.get_foldl_delete_none (now : Int) (L : List String) (c : Cache V) (k : String)
    (h : Cache.get now c k = none) :
    Cache.get now (L.foldl Cache.delete c) k = none := by
  induction L generalizing c with
  | nil => exact h
  | cons a t ih =>
    simp only [List.foldl_cons]
    apply ih
    by_cases hb : k = a
    · subst hb; exact Cache.get_delete_self now c k
    · rw [Cache.get_delete_other now c k a hb]; exact h

theorem Cache.get_foldl_delete_mem (now : Int) (L : List String) (c : Cache V) (k : String)
    (hk : k ∈ L) :
    Cache.get now (L.foldl Cache.delete c) k = none := by
  induction L generalizing c with
  | nil => cases hk
  | cons a t ih =>
    simp only [List.foldl_cons]
    rcases List.mem_cons.mp hk with h | h
    · subst h
      exact Cache.get_foldl_delete_none now t (Cache.delete c k) k
        (Cache.get_delete_self now c k)
    · exact ih (Cache.delete c a) h

theorem Cache.get_foldl_delete_not_mem (now : Int) (L : List String) (c : Cache V) (k : String)
    (hk : k ∉ L) :
    Cache.get now (L.foldl Cache.delete c) k = Cache.get now c k := by
  induction L generalizing c with
  | nil => rfl
  | cons a t ih =>
    simp only [List.foldl_cons]
    have hka : k ≠ a := fun h => hk (h ▸ List.mem_cons_self a t)
    have hkt : k ∉ t := fun h => hk (List.mem_cons_of_mem a h)
    rw [ih (Cache.delete c a) hkt, Cache.get_delete_other now c k a hka]

/-- C7: removing a fund code purges, for each of the four fetch kinds, the
bare `kind_code` key and every `kind_code_days` key for each days argument
that occurs at a call site of the repository (30 and 60 are the defaults of
`fetchNetValueHistoryFast` and `fetchSimpleKLineData`, 400 is passed by
`calculatePeriodReturns` and by the chart loader); afterwards no cached
entry for that code under any of these parameters remains. -/
theorem clearFundCache_purges (now : Int) (c : Cache V) (code : String) :
    ∀ kind ∈ ["estimate", "netvalue", "kline", "period"],
      Cache.get now (clearFundCache code c) (kind ++ "_" ++ code) = none ∧
      ∀ days ∈ [30, 60, 400],
        Cache.get now (clearFundCache code c)
          (kind ++ "_" ++ code ++ "_" ++ toString (days : Nat)) = none := by
  intro kind hkind
  rw [clearFundCache_eq_foldl]
  refine ⟨Cache.get_foldl_delete_mem now _ c _ ?_,
    fun days hdays => Cache.get_foldl_delete_mem now _ c _ ?_⟩
  · fin_cases hkind <;> simp [clearFundCacheKeys]
  · fin_cases hkind <;> fin_cases hdays <;> simp [clearFundCacheKeys]

/-- Concrete instance of `clearFundCache_purges`: clearing fund 000001 in a
cache holding its estimate, a 60-day kline series and a 400-day net-value
series removes all of them. -/
theorem clearFundCache_purges_witness :
    Cache.get 5 (clearFundCache "000001"
        ([⟨"estimate_000001", 1, 99⟩, ⟨"kline_000001_60", 2, 99⟩,
          ⟨"netvalue_000001_400", 3, 99⟩] : Cache Nat)) ("estimate" ++ "_" ++ "000001") = none ∧
    Cache.get 5 (clearFundCache "000001"
        ([⟨"estimate_000001", 1, 99⟩, ⟨"kline_000001_60", 2, 99⟩,
          ⟨"netvalue_000001_400", 3, 99⟩] : Cache Nat))
      ("kline" ++ "_" ++ "000001" ++ "_" ++ toString (60 : Nat)) = none := by
  refine ⟨(clearFundCache_purges 5 _ "000001" "estimate" (by simp)).1, ?_⟩
  exact (clearFundCache_purges 5 _ "000001" "kline" (by simp)).2 60 (by simp)

/-- C10: `clearFundCache code` only deletes the finitely many keys it
constructs; any key outside `clearFundCacheKeys code` is looked up
identically before and after the call. -/
theorem clearFundCache_frame (now : Int) (c : Cache V) (code k : String)
    (hk : k ∉ clearFundCacheKeys code) :
    Cache.get now (clearFundCache code c) k = Cache.get now c k := by
  rw [clearFundCache_eq_foldl]
  exact Cache.get_foldl_delete_not_mem now _ c k hk

/-- Concrete instance of `clearFundCache_frame`: clearing fund 000001 leaves
the estimate entry of fund 000002 untouched. -/
theorem clearFundCache_frame_witness :
    "estimate_000002" ∉ clearFundCacheKeys "000001" ∧
    Cache.get 5 (clearFundCache "000001"
        ([⟨"estimate_000002", 7, 99⟩] : Cache Nat)) "estimate_000002"
      = Cache.get 5 ([⟨"estimate_000002", 7, 99⟩] : Cache Nat) "estimate_000002" :=
  ⟨by decide, clearFundCache_frame 5 _ "000001" "estimate_000002" (by decide)⟩

-- ========== Concurrency limiter: C1 and C6 ==========

theorem LStep_complete_iff {s s2 : LimiterState} {t : Nat} {ok : Bool} :
    LStep s (.complete t ok) s2 ↔ t ∈ s.running ∧ s2 = completeStep s t := by
  constructor
  · intro h
    cases h
    exact ⟨by assumption, rfl⟩
  · rintro ⟨hmem, rfl⟩
    exact LStep.complete s t ok hmem

theorem limiter_invariant {s : LimiterState} (h : LReachable s) :
    s.running.length = s.activeRequests ∧ s.activeRequests ≤ MAX_CONCURRENT := by
  induction h with
  | init => exact ⟨rfl, by simp [initLimiter, MAX_CONCURRENT]⟩
  | @step s s2 e hr hstep ih =>
    cases hstep with
    | submit t =>
      unfold submitStep
      by_cases hlt : s.activeRequests < MAX_CONCURRENT
      · rw [if_pos hlt]
        simpa using ⟨ih.1, hlt⟩
      · rw [if_neg hlt]
        exact ih
    | complete t ok hmem =>
      have hlen : (s.running.erase t).length = s.activeRequests - 1 := by
        rw [List.length_erase_of_mem hmem, ih.1]
      cases hq : s.requestQueue with
      | nil =>
        simp only [completeStep, executeNextStep, hq]
        exact ⟨hlen, Nat.le_trans (Nat.sub_le _ _) ih.2⟩
      | cons q rest =>
        by_cases hlt : s.activeRequests - 1 < MAX_CONCURRENT
        · simp only [completeStep, executeNextStep, hq, if_pos hlt]
          refine ⟨?_, hlt⟩
          simp [hlen]
        · simp only [completeStep, executeNextStep, hq, if_neg hlt]
          exact ⟨hlen, Nat.le_trans (Nat.sub_le _ _) ih.2⟩

/-- C1: in every state reachable by any interleaving of submissions and
completions through `withConcurrencyControl`, the number of tasks started
but not yet completed never exceeds `MAX_CONCURRENT = 5`. -/
theorem limiter_bounded {s : LimiterState} (h : LReachable s) :
    s.running.length ≤ MAX_CONCURRENT := by
  have := limiter_invariant h
  omega

/-- Concrete instance of `limiter_bounded` at the state reached after one
submission. -/
theorem limiter_bounded_witness : (submitStep initLimiter 0).running.length ≤ MAX_CONCURRENT :=
  limiter_bounded (LReachable.step LReachable.init (LStep.submit initLimiter 0))

/-- C6: (i) a submission that arrives while 5 tasks are active is appended
at the back of the FIFO queue and is not started; (ii) whenever a running
task completes, the oldest queued task (the queue head) is dequeued and
started immediately; (iii) completion makes no distinction between success
and failure, so the failure of one task does not block any queued task. -/
theorem limiter_fifo :
    (∀ (s : LimiterState) (t : Nat), ¬ s.activeRequests < MAX_CONCURRENT →
      (submitStep s t).requestQueue = s.requestQueue ++ [t] ∧
      (submitStep s t).running = s.running) ∧
    (∀ (s : LimiterState) (t q : Nat) (rest : List Nat), LReachable s →
      t ∈ s.running → s.requestQueue = q :: rest →
      (completeStep s t).requestQueue = rest ∧ q ∈ (completeStep s t).running) ∧
    (∀ (s s2 : LimiterState) (t : Nat) (ok ok2 : Bool),
      LStep s (.complete t ok) s2 ↔ LStep s (.complete t ok2) s2) := by
  refine ⟨?_, ?_, ?_⟩
  · intro s t hfull
    unfold submitStep
    rw [if_neg hfull]
    exact ⟨rfl, rfl⟩
  · intro s t q rest hreach hmem hq
    have hinv := limiter_invariant hreach
    have hrun : 1 ≤ s.running.length := by
      cases hr : s.running with
      | nil => rw [hr] at hmem; cases hmem
      | cons a l => simp [hr]
    have hlt : s.activeRequests - 1 < MAX_CONCURRENT := by omega
    simp only [completeStep, executeNextStep, hq, if_pos hlt]
    exact ⟨by simp, by simp⟩
  · intro s s2 t ok ok2
    rw [LStep_complete_iff, LStep_complete_iff]

/-- Concrete instance of `limiter_fifo`: with 5 running tasks, submitting
task 9 queues it; completing task 3 then dequeues and starts task 9. -/
theorem limiter_fifo_witness :
    (submitStep ⟨5, [], [1, 2, 3, 4, 5]⟩ 9).requestQueue = [9] ∧
    (completeStep ⟨5, [9], [1, 2, 3, 4, 5]⟩ 3).requestQueue = [] ∧
    9 ∈ (completeStep ⟨5, [9], [1, 2, 3, 4, 5]⟩ 3).running := by
  have h5 : LReachable ⟨5, [9], [1, 2, 3, 4, 5]⟩ := by
    have r0 := LReachable.init
    have r1 := LReachable.step r0 (LStep.submit initLimiter 1)
    have r2 := LReachable.step r1 (LStep.submit _ 2)
    have r3 := LReachable.step r2 (LStep.submit _ 3)
    have r4 := LReachable.step r3 (LStep.submit _ 4)
    have r5 := LReachable.step r4 (LStep.submit _ 5)
    have r6 := LReachable.step r5 (LStep.submit _ 9)
    have : submitStep (submitStep (submitStep (submitStep (submitStep (submitStep
        initLimiter 1) 2) 3) 4) 5) 9 = ⟨5, [9], [1, 2, 3, 4, 5]⟩ := by decide
    rwa [this] at r6
  have hsub := limiter_fifo.1 ⟨5, [], [1, 2, 3, 4, 5]⟩ 9 (by decide)
  have hcomp := limiter_fifo.2.1 ⟨5, [9], [1, 2, 3, 4, 5]⟩ 3 9 [] h5 (by decide) rfl
  exact ⟨by simpa using hsub.1, hcomp.1, hcomp.2⟩

-- ========== Simple kline projection: C9 ==========

/-- C9: on a kline-cache miss with the source history cached, the kline
fetch returns exactly the cached newest-first history mapped to
(time, value, change) triples in reversed (chronologically ascending)
order, stores that result under its own kline key, and leaves the source
history entry unchanged. -/
theorem fetchSimpleKLineData_correct (now : Int) (code : String) (days : Nat)
    (c : Cache CacheVal) (trend : Option (List TrendItem)) (history : List NetValueRecord)
    (hmiss : Cache.get now c ("kline_" ++ code ++ "_" ++ toString days) = none)
    (hhit : Cache.get now c ("netvalue_" ++ code ++ "_" ++ toString days)
      = some (.histV history)) :
    (fetchSimpleKLineData now code days c trend).1
      = (history.map (fun item =>
          ({ time := item.date, value := item.netValue, change := item.changeRate,
             volume := none } : SimpleKLineData))).reverse ∧
    Cache.get now (fetchSimpleKLineData now code days c trend).2
        ("kline_" ++ code ++ "_" ++ toString days)
      = some (.klineV ((history.map (fun item =>
          ({ time := item.date, value := item.netValue, change := item.changeRate,
             volume := none } : SimpleKLineData))).reverse)) ∧
    Cache.get now (fetchSimpleKLineData now code days c trend).2
        ("netvalue_" ++ code ++ "_" ++ toString days)
      = some (.histV history) := by
  have hkeys : ("netvalue_" ++ code ++ "_" ++ toString days)
      ≠ ("kline_" ++ code ++ "_" ++ toString days) := by
    intro h
    have hlen := congrArg String.length h
    rw [String.length_append, String.length_append, String.length_append,
      String.length_append, String.length_append, String.length_append] at hlen
    have h9 : "netvalue_".length = 9 := rfl
    have h6 : "kline_".length = 6 := rfl
    omega
  refine ⟨?_, ?_, ?_⟩
  · simp only [fetchSimpleKLineData, fetchNetValueHistoryFast, hmiss, hhit]
  · simp only [fetchSimpleKLineData, fetchNetValueHistoryFast, hmiss, hhit]
    exact Cache.get_set_self now c _ _ CACHE_TTL_NET_VALUE (by norm_num [CACHE_TTL_NET_VALUE])
  · simp only [fetchSimpleKLineData, fetchNetValueHistoryFast, hmiss, hhit]
    rw [Cache.get_set_other now now c _ _ _ CACHE_TTL_NET_VALUE hkeys]
    exact hhit

/-- Concrete instance of `fetchSimpleKLineData_correct` on a two-record
history. -/
theorem fetchSimpleKLineData_correct_witness :
    Cache.get 0 ([⟨"netvalue_000001_60", .histV [⟨2, 2, 2, 1⟩, ⟨1, 1, 1, 0⟩], 10⟩]
        : Cache CacheVal) ("kline_" ++ "000001" ++ "_" ++ toString (60 : Nat)) = none ∧
    Cache.get 0 ([⟨"netvalue_000001_60", .histV [⟨2, 2, 2, 1⟩, ⟨1, 1, 1, 0⟩], 10⟩]
        : Cache CacheVal) ("netvalue_" ++ "000001" ++ "_" ++ toString (60 : Nat))
      = some (.histV [⟨2, 2, 2, 1⟩, ⟨1, 1, 1, 0⟩]) ∧
    (fetchSimpleKLineData 0 "000001" 60
        ([⟨"netvalue_000001_60", .histV [⟨2, 2, 2, 1⟩, ⟨1, 1, 1, 0⟩], 10⟩]
          : Cache CacheVal) none).1
      = (([⟨2, 2, 2, 1⟩, ⟨1, 1, 1, 0⟩] : List NetValueRecord).map (fun item =>
          ({ time := item.date, value := item.netValue, change := item.changeRate,
             volume := none } : SimpleKLineData))).reverse :=
  ⟨by decide, by decide,
    (fetchSimpleKLineData_correct 0 "000001" 60 _ none _ (by decide) (by decide)).1⟩

-- ========== Period returns: C2 ==========

theorem foldl_betterRecord_fixed (l : List NetValueRecord) (m : NetValueRecord)
    (h : ∀ r ∈ l, ¬ m.date < r.date) :
    l.foldl betterRecord (some m) = some m := by
  induction l with
  | nil => rfl
  | cons a t ih =>
    rw [List.foldl_cons]
    have hba : betterRecord (some m) a = some m := by
      show (if m.date < a.date then some a else some m) = some m
      rw [if_neg (h a (List.mem_cons_self a t))]
    rw [hba]
    exact ih (fun r hr => h r (List.mem_cons_of_mem a hr))

theorem find?_eq_mostRecentOnOrBefore (l : List NetValueRecord) (target : Int)
    (hsort : l.Pairwise (fun a b => b.date < a.date)) :
    l.find? (fun r => r.date ≤ target) = mostRecentOnOrBefore l target := by
  induction l with
  | nil => rfl
  | cons a t ih =>
    have h1 : ∀ b ∈ t, b.date < a.date := (List.pairwise_cons.mp hsort).1
    have h2 := (List.pairwise_cons.mp hsort).2
    by_cases ha : a.date ≤ target
    · rw [List.find?_cons_of_pos _ (by simp [ha])]
      unfold mostRecentOnOrBefore
      rw [List.filter_cons_of_pos (by simp [ha]), List.foldl_cons]
      rw [show betterRecord none a = some a from rfl]
      have hstay : ∀ r ∈ t.filter (fun r => decide (r.date ≤ target)),
          ¬ a.date < r.date := by
        intro r hr
        have := h1 r (List.mem_of_mem_filter hr)
        omega
      exact (foldl_betterRecord_fixed _ a hstay).symm ▸ rfl
    · rw [List.find?_cons_of_neg _ (by simp [ha])]
      unfold mostRecentOnOrBefore
      rw [List.filter_cons_of_neg (by simp [ha])]
      exact ih h2

/-- C2 counterexample: a newest-first two-record history with positive
latest value 1.1 in which the (unique) record dated on or before
`now - 7` has value 0. The claim requires a near-1-week entry for that
qualifying record, but `calculatePeriodReturns` returns no entry at all. -/
theorem calculatePeriodReturns_counterexample :
    ([⟨100, 11/10, 11/10, 0⟩, ⟨90, 0, 0, 0⟩] : List NetValueRecord).Pairwise
      (fun a b => b.date < a.date)
    ∧ (0 : ℚ) < 11/10
    ∧ (([⟨100, 11/10, 11/10, 0⟩, ⟨90, 0, 0, 0⟩] : List NetValueRecord).find?
        (fun r => r.date ≤ 100 - 7)).isSome = true
    ∧ (calculatePeriodReturns 100 "000001"
        ([⟨"netvalue_000001_400", .histV [⟨100, 11/10, 11/10, 0⟩, ⟨90, 0, 0, 0⟩], 1000⟩]
          : Cache CacheVal) none).1 = [] := by
  refine ⟨by decide, by norm_num, by decide, ?_⟩
  have hget1 : Cache.get 100
      ([⟨"netvalue_000001_400", .histV [⟨100, 11/10, 11/10, 0⟩, ⟨90, 0, 0, 0⟩], 1000⟩]
        : Cache CacheVal) ("period_" ++ "000001") = none := rfl
  have hget2 : Cache.get 100
      ([⟨"netvalue_000001_400", .histV [⟨100, 11/10, 11/10, 0⟩, ⟨90, 0, 0, 0⟩], 1000⟩]
        : Cache CacheVal) ("netvalue_" ++ "000001" ++ "_" ++ toString (400 : Nat))
      = some (.histV [⟨100, 11/10, 11/10, 0⟩, ⟨90, 0, 0, 0⟩]) := rfl
  norm_num [calculatePeriodReturns, fetchNetValueHistoryFast, hget1, hget2, periodsList,
    List.filterMap_cons, List.find?]

/-- C2 amended: under a period-cache miss with the 400-day history cached,
newest-first (strictly descending dates), at least 2 records and a positive
latest value, the result has, for each window of 7, 30, 90, 180, 365 days
in that order, an entry whose change is the rounded percentage change from
the most recent record dated on or before now minus the window to the
latest value - omitting a window when no qualifying record exists or when
the qualifying record's value is non-positive. -/
theorem calculatePeriodReturns_amended (now : Int) (code : String) (c : Cache CacheVal)
    (trend : Option (List TrendItem)) (latest : NetValueRecord) (rest : List NetValueRecord)
    (hpmiss : Cache.get now c ("period_" ++ code) = none)
    (hhit : Cache.get now c ("netvalue_" ++ code ++ "_" ++ toString (400 : Nat))
      = some (.histV (latest :: rest)))
    (hsort : (latest :: rest).Pairwise (fun a b => b.date < a.date))
    (hrest : rest ≠ [])
    (hpos : 0 < latest.netValue) :
    (calculatePeriodReturns now code c trend).1
      = periodsList.filterMap (fun p =>
          match mostRecentOnOrBefore (latest :: rest) (now - p.days) with
          | some found =>
            if 0 < found.netValue then
              some ⟨p.period, p.label, p.days,
                roundTo2 ((latest.netValue - found.netValue) / found.netValue * 100)⟩
            else none
          | none => none) := by
  have hlen : ¬ ((latest :: rest).length < 2) := by
    have := List.length_pos.mpr hrest
    simp only [List.length_cons]
    omega
  have hle : ¬ (latest.netValue ≤ 0) := not_le.mpr hpos
  simp only [calculatePeriodReturns, fetchNetValueHistoryFast, hpmiss, hhit,
    if_neg hlen, if_neg hle]
  exact congrArg (fun f => List.filterMap f periodsList)
    (funext fun p => by rw [find?_eq_mostRecentOnOrBefore _ _ hsort])

/-- Concrete instance of `calculatePeriodReturns_amended`, realising the
worked example of the claim: two records spanning 10 days, the older one
8 days before now at 1.00, the latest at 1.10; the result is the single
near-1-week entry of +10.00%. -/
theorem calculatePeriodReturns_amended_witness :
    (([⟨1002, 11/10, 11/10, 0⟩, ⟨992, 1, 1, 0⟩] : List NetValueRecord).Pairwise
      (fun a b => b.date < a.date)
    ∧ (0 : ℚ) < 11/10)
    ∧ (calculatePeriodReturns 1000 "000001"
        ([⟨"netvalue_000001_400", .histV [⟨1002, 11/10, 11/10, 0⟩, ⟨992, 1, 1, 0⟩], 9000⟩]
          : Cache CacheVal) none).1
      = [⟨"Z", "近1周", 7, 10⟩] :=
  ⟨⟨by decide, by norm_num⟩,
    (calculatePeriodReturns_amended 1000 "000001" _ none ⟨1002, 11/10, 11/10, 0⟩
      [⟨992, 1, 1, 0⟩] (by decide) (by rfl) (by decide) (by decide) (by norm_num)).trans
      (by norm_num [periodsList, mostRecentOnOrBefore, betterRecord, roundTo2, round_eq,
        List.filterMap_cons])⟩

-- ========== JSONP machinery: C3, C4, C5 ==========

theorem find?_settle_self (outs : List (Nat × FetchOutcome)) (id : Nat) (o : FetchOutcome)
    (h : outs.find? (fun q => q.1 = id) = none) :
    (settle outs id o).find? (fun q => q.1 = id) = some (id, o) := by
  unfold settle
  rw [h]
  exact List.find?_cons_of_pos _ (by simp)

/-- C4: a `jsonpgz` invocation with an absent payload, a falsy fund code,
or a code matching no pending record leaves the whole state unchanged - in
particular no live or persisted cache entry is written and no caller
promise is settled. -/
theorem jsonpgz_unmatched (now : Int) (s : FetchState) :
    jsonpgzStep now s none = s ∧
    (∀ d : FundEstimate, d.fundcode = "" → jsonpgzStep now s (some d) = s) ∧
    (∀ d : FundEstimate, (∀ r ∈ s.pending, r.code ≠ d.fundcode) →
      jsonpgzStep now s (some d) = s) := by
  refine ⟨rfl, fun d hd => ?_, fun d hd => ?_⟩
  · simp [jsonpgzStep, hd]
  · by_cases he : d.fundcode = ""
    · simp [jsonpgzStep, he]
    · have hf : s.pending.find? (fun r => r.code = d.fundcode) = none := by
        rw [List.find?_eq_none]
        intro r hr
        simpa using hd r hr
      simp [jsonpgzStep, he, hf]

/-- Concrete instance of `jsonpgz_unmatched`: a late response for fund
999999 while only fund 000001 is pending changes nothing. -/
theorem jsonpgz_unmatched_witness :
    (∀ r ∈ singleDispatchState.pending, r.code ≠ "999999") ∧
    jsonpgzStep 7 singleDispatchState (some ⟨"999999", "1.2", "0.5"⟩)
      = singleDispatchState :=
  ⟨by decide, (jsonpgz_unmatched 7 singleDispatchState).2.2 ⟨"999999", "1.2", "0.5"⟩ (by decide)⟩

/-- C3: a dispatched call whose caller has not been settled by a matching
response settles, when its timeout fires or its script errors, with the
persisted snapshot when one exists and with a rejection when none exists;
and the snapshot a dispatch captures is exactly the persisted-cache value
for that fund code at call time. -/
theorem estimate_fallback (s : FetchState) (r : PendingRecord)
    (hout : outcomeOf s r.id = none) :
    outcomeOf (timeoutStep s r) r.id
      = some (match r.persisted with
          | some p => FetchOutcome.resolved p
          | none => FetchOutcome.rejected ("超时: " ++ r.code)) ∧
    outcomeOf (scriptErrorStep s r) r.id
      = some (match r.persisted with
          | some p => FetchOutcome.resolved p
          | none => FetchOutcome.rejected ("失败: " ++ r.code)) ∧
    (∀ id code, (dispatchStep s id code).pending
      = s.pending ++ [⟨id, code, persistGet s.persist ("estimate_" ++ code)⟩]) := by
  have hfind : s.outcomes.find? (fun q => q.1 = r.id) = none := by
    unfold outcomeOf at hout
    exact Option.map_eq_none.mp hout
  refine ⟨?_, ?_, fun id code => rfl⟩
  · unfold outcomeOf timeoutStep
    rw [find?_settle_self _ _ _ hfind]
    rfl
  · unfold outcomeOf scriptErrorStep
    cases hf : s.pending.find? (fun p2 => p2.code = r.code) with
    | none =>
      simp only
      rw [find?_settle_self _ _ _ hfind]
      rfl
    | some found =>
      simp only
      rw [find?_settle_self _ _ _ hfind]
      rfl

/-- Concrete instance of `estimate_fallback`: fund 000001 dispatched with
no persisted snapshot; its timeout rejects the caller. -/
theorem estimate_fallback_witness :
    outcomeOf singleDispatchState 0 = none ∧
    outcomeOf (timeoutStep singleDispatchState ⟨0, "000001", none⟩) 0
      = some (FetchOutcome.rejected ("超时: " ++ "000001")) :=
  ⟨by decide, (estimate_fallback singleDispatchState ⟨0, "000001", none⟩ (by decide)).1⟩

/-- C5 counterexample: two overlapping `fetchFundEstimateFast` calls for
fund 000001 (both miss the empty live cache before either response) reach a
state with two pending records for the same code. -/
theorem pending_unique_counterexample :
    FReach [] doubleDispatchState ∧
    (doubleDispatchState.pending.filter (fun r => r.code = "000001")).length = 2 :=
  ⟨@FReach.step [] singleDispatchState doubleDispatchState
      (FEvent.dispatch 3 true 1 "000001")
      (@FReach.step [] (initFetch []) singleDispatchState
        (FEvent.dispatch 0 true 0 "000001") FReach.init (by decide))
      (by decide),
   by decide⟩

theorem nodupCodes_step {s s2 : FetchState} {e : FEvent}
    (hstep : fstep s e = some s2)
    (hdisp : ∀ now trading id code, e = .dispatch now trading id code →
      ∀ r ∈ s.pending, r.code ≠ code)
    (ih : (s.pending.map (fun r => r.code)).Nodup) :
    (s2.pending.map (fun r => r.code)).Nodup := by
  cases e with
  | dispatch now trading id code =>
    by_cases hc : Cache.get now s.live ("estimate_" ++ code) = none
        ∧ (trading = true ∨ persistGet s.persist ("estimate_" ++ code) = none)
        ∧ id ∉ usedIds s
    · have heq : fstep s (.dispatch now trading id code) = some (dispatchStep s id code) := by
        simp [fstep, hc]
      rw [heq] at hstep
      have hs2 := Option.some.inj hstep
      subst hs2
      have hfresh := hdisp now trading id code rfl
      simp only [dispatchStep, List.map_append, List.map_cons, List.map_nil]
      rw [List.nodup_append]
      refine ⟨ih, List.nodup_singleton _, ?_⟩
      intro a ha hb
      simp only [List.mem_singleton] at hb
      subst hb
      rcases List.mem_map.mp ha with ⟨r, hr, hcode⟩
      exact hfresh r hr hcode
    · have heq : fstep s (.dispatch now trading id code) = none := by
        simp only [fstep, if_neg hc]
      rw [heq] at hstep
      cases hstep
  | response now data =>
    have hs2 : jsonpgzStep now s data = s2 := Option.some.inj hstep
    subst hs2
    have hsub : (jsonpgzStep now s data).pending.Sublist s.pending := by
      cases data with
      | none => exact List.Sublist.refl _
      | some d =>
        by_cases he : d.fundcode = ""
        · simp only [jsonpgzStep, if_pos he]
          exact List.Sublist.refl _
        · cases hf : s.pending.find? (fun r => r.code = d.fundcode) with
          | none =>
            simp only [jsonpgzStep, if_neg he, hf]
            exact List.Sublist.refl _
          | some req =>
            simp only [jsonpgzStep, if_neg he, hf]
            exact List.eraseP_sublist _
    exact ih.sublist (hsub.map _)
  | timeoutFire r =>
    by_cases hm : r ∈ s.timers
    · have heq : fstep s (.timeoutFire r) = some (timeoutStep s r) := by
        simp only [fstep, if_pos hm]
      rw [heq] at hstep
      have hs2 := Option.some.inj hstep
      subst hs2
      exact ih.sublist ((List.eraseP_sublist _).map _)
    · have heq : fstep s (.timeoutFire r) = none := by
        simp only [fstep, if_neg hm]
      rw [heq] at hstep
      cases hstep
  | scriptError r =>
    by_cases hm : r ∈ s.scripts
    · have heq : fstep s (.scriptError r) = some (scriptErrorStep s r) := by
        simp only [fstep, if_pos hm]
      rw [heq] at hstep
      have hs2 := Option.some.inj hstep
      subst hs2
      have hsub : (scriptErrorStep s r).pending.Sublist s.pending := by
        cases hf : s.pending.find? (fun p2 => p2.code = r.code) with
        | none =>
          simp only [scriptErrorStep, hf]
          exact List.Sublist.refl _
        | some found =>
          simp only [scriptErrorStep, hf]
          exact List.eraseP_sublist _
      exact ih.sublist (hsub.map _)
    · have heq : fstep s (.scriptError r) = none := by
        simp only [fstep, if_neg hm]
      rw [heq] at hstep
      cases hstep
  | cacheHit now id code =>
    cases hv : Cache.get now s.live ("estimate_" ++ code) with
    | none =>
      have heq : fstep s (.cacheHit now id code) = none := by
        simp only [fstep, hv]
      rw [heq] at hstep
      cases hstep
    | some v =>
      by_cases hid : id ∉ usedIds s
      · have heq : fstep s (.cacheHit now id code)
            = some { s with outcomes := settle s.outcomes id (.resolved v) } := by
          simp only [fstep, hv, if_pos hid]
        rw [heq] at hstep
        have hs2 := Option.some.inj hstep
        subst hs2
        exact ih
      · have heq : fstep s (.cacheHit now id code) = none := by
          simp only [fstep, hv, if_neg hid]
        rw [heq] at hstep
        cases hstep
  | offHours now id code =>
    cases hv : Cache.get now s.live ("estimate_" ++ code) with
    | some v =>
      have heq : fstep s (.offHours now id code) = none := by
        simp only [fstep, hv]
      rw [heq] at hstep
      cases hstep
    | none =>
      cases hp : persistGet s.persist ("estimate_" ++ code) with
      | none =>
        have heq : fstep s (.offHours now id code) = none := by
          simp only [fstep, hv, hp]
        rw [heq] at hstep
        cases hstep
      | some p =>
        by_cases hid : id ∉ usedIds s
        · have heq : fstep s (.offHours now id code)
              = some { s with
                  live := Cache.set now s.live ("estimate_" ++ code) p CACHE_TTL_ESTIMATE,
                  outcomes := settle s.outcomes id (.resolved p) } := by
            simp only [fstep, hv, hp, if_pos hid]
          rw [heq] at hstep
          have hs2 := Option.some.inj hstep
          subst hs2
          exact ih
        · have heq : fstep s (.offHours now id code) = none := by
            simp only [fstep, hv, hp, if_neg hid]
          rw [heq] at hstep
          cases hstep

/-- C5 amended: in every state reachable by interleavings in which no
dispatch happens for a code that already has a pending record, the
`pendingRequests` list holds at most one record per fund code. -/
theorem pending_unique_amended {p0 : List (String × FundEstimate)} {s : FetchState}
    (h : FReachD p0 s) : (s.pending.map (fun r => r.code)).Nodup := by
  induction h with
  | init => simp [initFetch]
  | step hr hstep hdisp ih => exact nodupCodes_step hstep hdisp ih

/-- Concrete instance of `pending_unique_amended` after one disciplined
dispatch. -/
theorem pending_unique_amended_witness :
    FReachD [] singleDispatchState ∧
    (singleDispatchState.pending.map (fun r => r.code)).Nodup := by
  have hd : FReachD [] singleDispatchState :=
    @FReachD.step [] (initFetch []) singleDispatchState
      (FEvent.dispatch 0 true 0 "000001") FReachD.init (by decide)
      (fun now trading id code he r hr => by cases hr)
  exact ⟨hd, pending_unique_amended hd⟩

-- ========== Fail-soft fetchers: C8 ==========

/-- C8: on every input the three fetchers resolve (their promise is never
rejected), and on a network or parse failure - a throwing fetch/json
(`.error`) or a payload without the expected diff (`.ok none`) - with no
cached value, the market-index and ranking fetchers resolve with the empty
list and the global-index fetcher resolves with the hardcoded zero-valued
fallback list. -/
theorem failsoft_fetchers :
    (∀ cached net, ∃ v, fetchMarketIndicesFast cached net = .ok v) ∧
    (∀ e, fetchMarketIndicesFast none (.error e) = .ok []) ∧
    (fetchMarketIndicesFast none (.ok none) = .ok []) ∧
    (∀ cached net, ∃ v, fetchFundRankingFast cached net = .ok v) ∧
    (∀ e, fetchFundRankingFast none (.error e) = .ok []) ∧
    (fetchFundRankingFast none (.ok none) = .ok []) ∧
    (∀ cached net, ∃ v, fetchGlobalIndices cached net = .ok v) ∧
    (∀ e, fetchGlobalIndices none (.error e) = .ok getDefaultGlobalIndices) ∧
    (fetchGlobalIndices none (.ok none) = .ok getDefaultGlobalIndices) := by
  have hglobal : ∀ (b : List GlobalIndex),
      ∃ v, (if b = [] then (Except.ok getDefaultGlobalIndices : Except String (List GlobalIndex))
        else Except.ok b) = Except.ok v := by
    intro b
    by_cases h : b = []
    · rw [if_pos h]; exact ⟨_, rfl⟩
    · rw [if_neg h]; exact ⟨_, rfl⟩
  refine ⟨?_, fun e => rfl, rfl, ?_, fun e => rfl, rfl, ?_, fun e => rfl, rfl⟩
  · intro cached net
    match cached, net with
    | some c, _ => exact ⟨c, rfl⟩
    | none, .error e => exact ⟨[], rfl⟩
    | none, .ok none => exact ⟨[], rfl⟩
    | none, .ok (some diff) => exact ⟨_, rfl⟩
  · intro cached net
    match cached, net with
    | some c, _ => exact ⟨c, rfl⟩
    | none, .error e => exact ⟨[], rfl⟩
    | none, .ok none => exact ⟨[], rfl⟩
    | none, .ok (some diff) => exact ⟨_, rfl⟩
  · intro cached net
    match cached, net with
    | some c, _ => exact ⟨c, rfl⟩
    | none, .error e => exact ⟨getDefaultGlobalIndices, rfl⟩
    | none, .ok none => exact ⟨getDefaultGlobalIndices, rfl⟩
    | none, .ok (some diff) => exact hglobal _
